import Mathlib

/-!
Verification of the coffee-profile decision engine (`decision_rules.py`).

The engine is pure: a scoreboard (dimension → label → integer score) is
initialised to zero, rule catalogs add integer deltas per answered question,
each dimension is resolved by a first-wins argmax, two hard overrides
post-process the derived bean preference, and explanations are ranked by a
stable descending sort on priority.

Python dicts preserve insertion order, so every mapping is embedded as an
association list in the same insertion order as the source; dict membership
tests become `List.any`, lookups become `List.find?`, and in-place mutation
becomes explicit state passing.
-/

-- =================== label candidates ===================

def ACIDITY : List String := ["low", "medium", "high"]

def CAFFEINE : List String := ["low", "medium", "high"]

def ROAST : List String := ["light", "medium", "dark"]

def FLAVOR : List String := ["nutty_chocolate", "sweet_caramel", "fruity", "floral", "spicy"]

def PROCESS : List String := ["washed", "natural", "honey", "anaerobic", "any"]

def BREW : List String := ["filter", "espresso", "both"]

-- =================== User input schema ===================

structure UserPref where
  stomach_sensitivity : String
  caffeine_sensitivity : String
  time_of_day : String
  purpose : String
  flavor_direction : List String
  brew_method : String
deriving Repr, DecidableEq

-- =================== Scoring utilities ===================

abbrev ScoreMap := List (String × Int)

abbrev Scoreboard := List (String × ScoreMap)

/-- `init_scoreboard`: every label of every dimension starts at 0, including
the derived `bean_pref` axis. -/
def init_scoreboard : Scoreboard :=
  [ ("acidity", ACIDITY.map (fun k => (k, 0))),
    ("caffeine", CAFFEINE.map (fun k => (k, 0))),
    ("roast", ROAST.map (fun k => (k, 0))),
    ("flavor", FLAVOR.map (fun k => (k, 0))),
    ("process", PROCESS.map (fun k => (k, 0))),
    ("brew", BREW.map (fun k => (k, 0))),
    ("bean_pref", [("arabica", 0), ("blend", 0), ("robusta", 0)]) ]

/-- One inner step of `apply_delta`: `if label in scores[dim]: scores[dim][label] += delta`. -/
def addDelta (m : ScoreMap) (lab : String) (d : Int) : ScoreMap :=
  if m.any (fun p => p.1 = lab) then
    m.map (fun p => if p.1 = lab then (p.1, p.2 + d) else p)
  else m

/-- The inner loop of `apply_delta` over one dimension's delta mapping. -/
def applyChanges (m : ScoreMap) (changes : ScoreMap) : ScoreMap :=
  changes.foldl (fun acc c => addDelta acc c.1 c.2) m

/-- One outer step of `apply_delta`: skip an unknown dimension
(`if dim not in scores: continue`), else run the inner loop on that dimension. -/
def applyDimDelta (sc : Scoreboard) (dc : String × ScoreMap) : Scoreboard :=
  if sc.any (fun p => p.1 = dc.1) then
    sc.map (fun p => if p.1 = dc.1 then (p.1, applyChanges p.2 dc.2) else p)
  else sc

/-- `apply_delta(scores, deltas)`: add each named delta to the matching
(dimension, label) score; unknown dimensions and labels are skipped silently. -/
def apply_delta (scores : Scoreboard) (deltas : Scoreboard) : Scoreboard :=
  deltas.foldl applyDimDelta scores

/-- The loop body of `argmax_label`: keep the current best unless the new
score is strictly greater (`if best is None or v > best_score`). -/
def argmaxStep (best : Option (String × Int)) (kv : String × Int) : Option (String × Int) :=
  match best with
  | none => some kv
  | some b => if kv.2 > b.2 then some kv else best

/-- `argmax_label(score_map)`: label of the highest score, first-wins on ties. -/
def argmax_label (score_map : ScoreMap) : Option String :=
  (score_map.foldl argmaxStep none).map Prod.fst

/-- Stable insertion for a descending-priority sort: a new element goes in
front of the first element whose priority is ≤ its own, so elements from
earlier in the input stay in front of later equal-priority elements. -/
def insertReason (x : String × Int) : List (String × Int) → List (String × Int)
  | [] => [x]
  | y :: ys => if x.2 ≥ y.2 then x :: y :: ys else y :: insertReason x ys

/-- Stable sort by priority descending; extensionally equal to Python's
stable `sorted(reasons, key=lambda x: x[1], reverse=True)`. -/
def sortReasonsDesc : List (String × Int) → List (String × Int)
  | [] => []
  | x :: xs => insertReason x (sortReasonsDesc xs)

/-- `top_reasons(reasons, k)`: texts of the k highest-priority entries. -/
def top_reasons (reasons : List (String × Int)) (k : Nat) : List String :=
  ((sortReasonsDesc reasons).take k).map Prod.fst

-- =================== RULES DEFINITION ===================

/-- A rule: (score deltas, explanation text, explanation priority). -/
abbrev Rule := Scoreboard × String × Int

def RULES : List (String × List (String × Rule)) :=
  [ ("stomach_sensitivity",
     [ ("high",
        ( [ ("acidity", [("low", 4), ("medium", 1), ("high", -3)]),
            ("roast", [("medium", 2), ("dark", 2), ("light", -2)]),
            ("bean_pref", [("arabica", 3), ("blend", 1), ("robusta", -6)]) ],
          "High stomach sensitivity → prioritize low acidity + smoother roast; avoid robusta-heavy options to reduce irritation risk.",
          110)),
       ("medium",
        ( [ ("acidity", [("medium", 3), ("low", 1), ("high", -1)]),
            ("roast", [("medium", 2), ("light", 1), ("dark", 1)]),
            ("bean_pref", [("arabica", 1), ("blend", 1), ("robusta", -1)]) ],
          "Medium stomach sensitivity → keep profile balanced; prefer cleaner/smoother options.",
          70)),
       ("low",
        ( [ ("acidity", [("high", 2), ("medium", 2), ("low", 0)]),
            ("roast", [("light", 2), ("medium", 2), ("dark", 0)]),
            ("bean_pref", [("arabica", 0), ("blend", 1), ("robusta", 1)]) ],
          "Low stomach sensitivity → you can explore brighter profiles; bean choice is flexible.",
          50)) ]),
    ("caffeine_sensitivity",
     [ ("high",
        ( [ ("caffeine", [("low", 5), ("medium", 1), ("high", -6)]),
            ("bean_pref", [("arabica", 4), ("blend", 1), ("robusta", -10)]) ],
          "High caffeine sensitivity → strongly prioritize low caffeine; avoid robusta-heavy coffee.",
          120)),
       ("medium",
        ( [ ("caffeine", [("medium", 3), ("low", 1), ("high", -2)]),
            ("bean_pref", [("arabica", 2), ("blend", 1), ("robusta", -2)]) ],
          "Medium caffeine sensitivity → aim for moderate caffeine (Arabica or light blend).",
          70)),
       ("low",
        ( [ ("caffeine", [("high", 2), ("medium", 2), ("low", 0)]),
            ("bean_pref", [("robusta", 2), ("blend", 1), ("arabica", 0)]) ],
          "Low caffeine sensitivity → higher caffeine profiles are acceptable (blend/robusta allowed).",
          40)) ]),
    ("time_of_day",
     [ ("morning",
        ( [ ("caffeine", [("high", 2), ("medium", 2), ("low", 0)]),
            ("roast", [("medium", 2), ("light", 1)]) ],
          "Morning coffee → allow medium–high caffeine for an energizing start.",
          60)),
       ("afternoon",
        ( [ ("caffeine", [("medium", 2), ("low", 1), ("high", 1)]),
            ("roast", [("medium", 2)]) ],
          "Afternoon coffee → keep caffeine moderate to avoid an afternoon crash.",
          50)),
       ("evening",
        ( [ ("caffeine", [("low", 3), ("medium", 1), ("high", -2)]),
            ("roast", [("medium", 2), ("dark", 1)]) ],
          "Evening coffee → prioritize lower caffeine to reduce sleep disruption risk.",
          80)) ]),
    ("purpose",
     [ ("focus",
        ( [ ("caffeine", [("high", 2), ("medium", 2), ("low", 0)]),
            ("roast", [("medium", 2)]) ],
          "Purpose: focus → lean toward medium–high caffeine with a balanced roast.",
          60)),
       ("balanced",
        ( [ ("caffeine", [("medium", 2)]),
            ("roast", [("medium", 2)]),
            ("acidity", [("medium", 2)]) ],
          "Purpose: balanced → default to a versatile middle-profile (medium caffeine, medium roast, medium acidity).",
          50)),
       ("calm",
        ( [ ("caffeine", [("low", 2), ("medium", 1), ("high", -1)]),
            ("acidity", [("low", 2), ("medium", 1)]) ],
          "Purpose: calm → prefer lower stimulation (lower caffeine, gentler acidity).",
          80)) ]),
    ("brew_method",
     [ ("filter",
        ( [ ("brew", [("filter", 3), ("both", 1)]),
            ("roast", [("light", 1), ("medium", 2)]) ],
          "Brew method: filter → filter-friendly profiles often shine at light–medium roast.",
          40)),
       ("espresso",
        ( [ ("brew", [("espresso", 3), ("both", 1)]),
            ("roast", [("medium", 2), ("dark", 2)]) ],
          "Brew method: espresso → espresso-friendly profiles often fit medium–dark roast.",
          40)),
       ("both",
        ( [ ("brew", [("both", 3), ("filter", 1), ("espresso", 1)]),
            ("roast", [("medium", 2)]) ],
          "Brew method: both → choose a flexible medium roast profile.",
          30)) ]) ]

def FLAVOR_RULES : List (String × Rule) :=
  [ ("nutty_chocolate",
     ( [ ("flavor", [("nutty_chocolate", 3)]),
         ("roast", [("medium", 2), ("dark", 2)]),
         ("process", [("washed", 1), ("honey", 1), ("any", 1)]) ],
       "Flavor: nutty/chocolate → often pairs well with medium–dark roast; washed/honey can keep it clean and rounded.",
       55)),
    ("sweet_caramel",
     ( [ ("flavor", [("sweet_caramel", 3)]),
         ("roast", [("medium", 2)]),
         ("process", [("honey", 2), ("natural", 1), ("any", 1)]) ],
       "Flavor: sweet/caramel → typically fits medium roast; honey/natural processes can enhance sweetness.",
       55)),
    ("fruity",
     ( [ ("flavor", [("fruity", 3)]),
         ("roast", [("light", 2), ("medium", 1), ("dark", -1)]),
         ("process", [("natural", 2), ("anaerobic", 1), ("washed", 1), ("any", 1)]) ],
       "Flavor: fruity → commonly found in light–medium roast; natural/anaerobic can emphasize fruit notes.",
       55)),
    ("floral",
     ( [ ("flavor", [("floral", 3)]),
         ("roast", [("light", 2), ("medium", 1)]),
         ("process", [("washed", 2), ("any", 1)]) ],
       "Flavor: floral → often shines in light roast; washed process tends to keep it clean and tea-like.",
       55)),
    ("spicy",
     ( [ ("flavor", [("spicy", 3)]),
         ("roast", [("medium", 2), ("dark", 2)]),
         ("process", [("washed", 1), ("natural", 1), ("any", 1)]) ],
       "Flavor: spicy/earthy → commonly matches medium–dark roast; washed/natural can work depending on the bean.",
       55)) ]

-- =================== Main Function: building coffee profile ===================

/-- `RULES.get(field_name, {})` followed by the `value not in field_rules` test. -/
def lookupRule (field value : String) : Option Rule :=
  match RULES.find? (fun p => p.1 = field) with
  | none => none
  | some fr => (fr.2.find? (fun q => q.1 = value)).map Prod.snd

/-- State threaded through `build_profile`: (scores, collected reasons). -/
abbrev ScoreState := Scoreboard × List (String × Int)

/-- One iteration of the single-choice loop in `build_profile`. -/
def applyFieldRule (st : ScoreState) (field value : String) : ScoreState :=
  match lookupRule field value with
  | none => st
  | some r => (apply_delta st.1 r.1, st.2 ++ [(r.2.1, r.2.2)])

/-- The fixed (field name, answer value) pairs iterated by `build_profile`. -/
def singleFields (user : UserPref) : List (String × String) :=
  [ ("stomach_sensitivity", user.stomach_sensitivity),
    ("caffeine_sensitivity", user.caffeine_sensitivity),
    ("time_of_day", user.time_of_day),
    ("purpose", user.purpose),
    ("brew_method", user.brew_method) ]

/-- The single-choice rule loop of `build_profile`. -/
def singleFold (user : UserPref) (st : ScoreState) : ScoreState :=
  (singleFields user).foldl (fun acc fv => applyFieldRule acc fv.1 fv.2) st

/-- One iteration of the flavor loop: skip an unknown flavor, else apply its
rule's deltas and record its explanation. -/
def flavorStep (st : ScoreState) (f : String) : ScoreState :=
  match FLAVOR_RULES.find? (fun p => p.1 = f) with
  | none => st
  | some fr => (apply_delta st.1 fr.2.1, st.2 ++ [(fr.2.2.1, fr.2.2.2)])

/-- The flavor-direction loop of `build_profile`, one step per list element. -/
def flavorFold (st : ScoreState) (l : List String) : ScoreState :=
  l.foldl flavorStep st

/-- `scores[dim]` (always present for the dimensions `build_profile` reads). -/
def getDim (scores : Scoreboard) (dim : String) : ScoreMap :=
  match scores.find? (fun p => p.1 = dim) with
  | some p => p.2
  | none => []

/-- The two sequential safety overrides on the resolved bean preference:
caffeine-high forces robusta to arabica, then stomach-high does the same. -/
def applyOverrides (caff stom : String) (bp : Option String) : Option String :=
  let bp1 := if caff = "high" ∧ bp = some "robusta" then some "arabica" else bp
  if stom = "high" ∧ bp1 = some "robusta" then some "arabica" else bp1

structure Profile where
  acidity_level : Option String
  caffeine_tendency : Option String
  roast_level : Option String
  flavor_direction : Option String
  process_preference : Option String
  brew_suitability : Option String
  bean_preference : Option String
deriving Repr, DecidableEq

structure BuildResult where
  profile : Profile
  scores : Scoreboard
  reasons : List String
  disclaimer : String
deriving Repr, DecidableEq

/-- `build_profile(user)`: run both rule loops from a fresh scoreboard,
resolve every dimension by argmax, apply the bean overrides, rank reasons. -/
def build_profile (user : UserPref) : BuildResult :=
  let st := flavorFold (singleFold user (init_scoreboard, [])) user.flavor_direction
  { profile :=
      { acidity_level := argmax_label (getDim st.1 "acidity")
        caffeine_tendency := argmax_label (getDim st.1 "caffeine")
        roast_level := argmax_label (getDim st.1 "roast")
        flavor_direction := argmax_label (getDim st.1 "flavor")
        process_preference := argmax_label (getDim st.1 "process")
        brew_suitability := argmax_label (getDim st.1 "brew")
        bean_preference :=
          applyOverrides user.caffeine_sensitivity user.stomach_sensitivity
            (argmax_label (getDim st.1 "bean_pref")) }
    scores := st.1
    reasons := top_reasons st.2 4
    disclaimer := "This is a preference-based recommendation and not medical advice." }

-- =================== Specification helpers ===================

/-- First element with the maximal value, seeded with `b`; mirrors the
running best of `argmax_label`. -/
def bestOf (b : String × Int) : List (String × Int) → String × Int
  | [] => b
  | x :: xs => bestOf (if x.2 > b.2 then x else b) xs

/-- Score lookup in a single dimension's mapping (first matching key). -/
def lookupSM : ScoreMap → String → Option Int
  | [], _ => none
  | p :: ps, lab => if p.1 = lab then some p.2 else lookupSM ps lab

/-- The mapping stored for a dimension, when present. -/
def dimMap : Scoreboard → String → Option ScoreMap
  | [], _ => none
  | e :: es, dim => if e.1 = dim then some e.2 else dimMap es dim

/-- Score lookup in a scoreboard (also used to read a delta-set). -/
def lookupScore : Scoreboard → String → String → Option Int
  | [], _, _ => none
  | e :: es, dim, lab => if e.1 = dim then lookupSM e.2 lab else lookupScore es dim lab

/-- The key structure of a scoreboard: each dimension with its label list. -/
def skeleton (sb : Scoreboard) : List (String × List String) :=
  sb.map (fun p => (p.1, p.2.map Prod.fst))

/-- The canonical key structure every scoring run maintains. -/
def canonicalSkeleton : List (String × List String) :=
  [ ("acidity", ACIDITY), ("caffeine", CAFFEINE), ("roast", ROAST),
    ("flavor", FLAVOR), ("process", PROCESS), ("brew", BREW),
    ("bean_pref", ["arabica", "blend", "robusta"]) ]

-- =================== Theorems ===================

theorem applyOverrides_ne_robusta (c s : String) (b : Option String)
    (h : c = "high" ∨ s = "high") : applyOverrides c s b ≠ some "robusta" := by
  simp only [applyOverrides]
  rcases h with h | h
  · subst h
    by_cases hb : b = some "robusta" <;> simp [hb]
  · subst h
    by_cases hb1 : (if c = "high" ∧ b = some "robusta" then some "arabica" else b)
        = some "robusta" <;>
      simp [hb1]

/-- C1: whenever caffeine sensitivity or stomach sensitivity is "high", the
bean preference produced by `build_profile` is never "robusta". -/
theorem c1_high_sensitivity_never_robusta (u : UserPref)
    (h : u.caffeine_sensitivity = "high" ∨ u.stomach_sensitivity = "high") :
    (build_profile u).profile.bean_preference ≠ some "robusta" := by
  have hb : (build_profile u).profile.bean_preference
      = applyOverrides u.caffeine_sensitivity u.stomach_sensitivity
          (argmax_label (getDim
            (flavorFold (singleFold u (init_scoreboard, [])) u.flavor_direction).1
            "bean_pref")) := rfl
  rw [hb]
  exact applyOverrides_ne_robusta _ _ _ h

theorem c1_witness :
    ((("high" : String) = "high" ∨ ("low" : String) = "high") ∧
      (build_profile ⟨"low", "high", "morning", "focus", ["spicy"], "espresso"⟩).profile.bean_preference
        ≠ some "robusta") :=
  ⟨Or.inl rfl,
   c1_high_sensitivity_never_robusta
     ⟨"low", "high", "morning", "focus", ["spicy"], "espresso"⟩ (Or.inl rfl)⟩

/-- C9: the concrete scenario (high stomach and caffeine sensitivity, evening,
calm, floral, filter) resolves to arabica, low caffeine, washed, filter. -/
theorem c9_scenario_a :
    (build_profile ⟨"high", "high", "evening", "calm", ["floral"], "filter"⟩).profile.bean_preference
        = some "arabica" ∧
    (build_profile ⟨"high", "high", "evening", "calm", ["floral"], "filter"⟩).profile.caffeine_tendency
        = some "low" ∧
    (build_profile ⟨"high", "high", "evening", "calm", ["floral"], "filter"⟩).profile.process_preference
        = some "washed" ∧
    (build_profile ⟨"high", "high", "evening", "calm", ["floral"], "filter"⟩).profile.brew_suitability
        = some "filter" :=
  ⟨rfl, rfl, rfl, rfl⟩

/-- C5: `build_profile` is deterministic — two inputs with identical field
values produce identical results. -/
theorem c5_deterministic (u v : UserPref)
    (h1 : u.stomach_sensitivity = v.stomach_sensitivity)
    (h2 : u.caffeine_sensitivity = v.caffeine_sensitivity)
    (h3 : u.time_of_day = v.time_of_day)
    (h4 : u.purpose = v.purpose)
    (h5 : u.flavor_direction = v.flavor_direction)
    (h6 : u.brew_method = v.brew_method) :
    build_profile u = build_profile v := by
  have huv : u = v := by
    cases u
    cases v
    simp only [UserPref.mk.injEq]
    exact ⟨h1, h2, h3, h4, h5, h6⟩
  rw [huv]

theorem c5_witness :
    (("low" : String) = "low" ∧ ("low" : String) = "low" ∧
     ("morning" : String) = "morning" ∧ ("focus" : String) = "focus" ∧
     (["fruity"] : List String) = ["fruity"] ∧ ("both" : String) = "both") ∧
    build_profile ⟨"low", "low", "morning", "focus", ["fruity"], "both"⟩
      = build_profile ⟨"low", "low", "morning", "focus", ["fruity"], "both"⟩ :=
  ⟨⟨rfl, rfl, rfl, rfl, rfl, rfl⟩,
   c5_deterministic _ _ rfl rfl rfl rfl rfl rfl⟩

theorem flavorFold_append (st : ScoreState) (l l' : List String) :
    flavorFold st (l ++ l') = flavorFold (flavorFold st l) l' := by
  simp [flavorFold, List.foldl_append]

/-- C6: appending a flavor value that is not in the flavor catalog changes
nothing: the whole result equals the one for the original input. -/
theorem c6_unknown_flavor_noop (u : UserPref) (f : String)
    (h : FLAVOR_RULES.find? (fun p => p.1 = f) = none) :
    build_profile { u with flavor_direction := u.flavor_direction ++ [f] }
      = build_profile u := by
  cases u with
  | mk a b c d e g =>
    have key : ∀ st : ScoreState, flavorFold st (e ++ [f]) = flavorFold st e := by
      intro st
      rw [flavorFold_append]
      simp [flavorFold, flavorStep, h]
    simp only [build_profile]
    rw [key]
    rfl

theorem c6_witness :
    FLAVOR_RULES.find? (fun p => p.1 = "durian") = none ∧
    build_profile ⟨"low", "medium", "afternoon", "balanced", ["fruity", "durian"], "both"⟩
      = build_profile ⟨"low", "medium", "afternoon", "balanced", ["fruity"], "both"⟩ :=
  ⟨rfl, c6_unknown_flavor_noop
          ⟨"low", "medium", "afternoon", "balanced", ["fruity"], "both"⟩ "durian" rfl⟩

/-- C10: each occurrence of a known flavor value in `flavor_direction` applies
the matching rule's delta-set once and records its explanation once, so a
value listed twice is counted twice, not deduplicated. -/
theorem c10_flavor_per_occurrence (st : ScoreState) (l1 l2 : List String)
    (f : String) (r : String × Rule)
    (h : FLAVOR_RULES.find? (fun p => p.1 = f) = some r) :
    flavorFold st (l1 ++ f :: l2) =
      flavorFold (apply_delta (flavorFold st l1).1 r.2.1,
                  (flavorFold st l1).2 ++ [(r.2.2.1, r.2.2.2)]) l2 := by
  have : flavorFold st (l1 ++ f :: l2) = flavorFold (flavorStep (flavorFold st l1) f) l2 := by
    simp [flavorFold, List.foldl_append]
  rw [this]
  simp [flavorStep, h]

theorem c10_witness :
    FLAVOR_RULES.find? (fun p => p.1 = "floral")
      = some ("floral",
          ([("flavor", [("floral", 3)]),
            ("roast", [("light", 2), ("medium", 1)]),
            ("process", [("washed", 2), ("any", 1)])],
           "Flavor: floral → often shines in light roast; washed process tends to keep it clean and tea-like.",
           55)) ∧
    flavorFold (init_scoreboard, []) (["floral"] ++ "floral" :: []) =
      flavorFold
        (apply_delta (flavorFold (init_scoreboard, []) ["floral"]).1
          [("flavor", [("floral", 3)]),
           ("roast", [("light", 2), ("medium", 1)]),
           ("process", [("washed", 2), ("any", 1)])],
         (flavorFold (init_scoreboard, []) ["floral"]).2 ++
           [("Flavor: floral → often shines in light roast; washed process tends to keep it clean and tea-like.",
             55)]) [] :=
  ⟨rfl,
   c10_flavor_per_occurrence (init_scoreboard, []) ["floral"] [] "floral"
     ("floral",
      ([("flavor", [("floral", 3)]),
        ("roast", [("light", 2), ("medium", 1)]),
        ("process", [("washed", 2), ("any", 1)])],
       "Flavor: floral → often shines in light roast; washed process tends to keep it clean and tea-like.",
       55)) rfl⟩

theorem fieldFold_no_match (l : List (String × String)) (st : ScoreState)
    (h : ∀ fv ∈ l, lookupRule fv.1 fv.2 = none) :
    l.foldl (fun acc fv => applyFieldRule acc fv.1 fv.2) st = st := by
  induction l generalizing st with
  | nil => rfl
  | cons fv rest ih =>
    simp only [List.foldl_cons]
    rw [show applyFieldRule st fv.1 fv.2 = st from by
      simp [applyFieldRule, h fv (by simp)]]
    exact ih st (fun x hx => h x (by simp [hx]))

theorem singleFold_no_match (u : UserPref) (st : ScoreState)
    (h : ∀ fv ∈ singleFields u, lookupRule fv.1 fv.2 = none) :
    singleFold u st = st :=
  fieldFold_no_match _ _ h

theorem flavorFold_no_match (l : List String) (st : ScoreState)
    (h : ∀ f ∈ l, FLAVOR_RULES.find? (fun p => p.1 = f) = none) :
    flavorFold st l = st := by
  induction l generalizing st with
  | nil => rfl
  | cons f rest ih =>
    show (f :: rest).foldl flavorStep st = st
    simp only [List.foldl_cons]
    rw [show flavorStep st f = st from by simp [flavorStep, h f (by simp)]]
    exact ih st (fun x hx => h x (by simp [hx]))

/-- C2: when no single-choice answer matches a catalog rule and no flavor
selection matches a flavor rule, every primary dimension resolves to the
first label of its canonical order. -/
theorem c2_default_bias (u : UserPref)
    (hs : ∀ fv ∈ singleFields u, lookupRule fv.1 fv.2 = none)
    (hf : ∀ f ∈ u.flavor_direction, FLAVOR_RULES.find? (fun p => p.1 = f) = none) :
    (build_profile u).profile.acidity_level = some "low" ∧
    (build_profile u).profile.caffeine_tendency = some "low" ∧
    (build_profile u).profile.roast_level = some "light" ∧
    (build_profile u).profile.flavor_direction = some "nutty_chocolate" ∧
    (build_profile u).profile.process_preference = some "washed" ∧
    (build_profile u).profile.brew_suitability = some "filter" := by
  have h1 : singleFold u (init_scoreboard, []) = (init_scoreboard, []) :=
    singleFold_no_match u _ hs
  have h2 : flavorFold (init_scoreboard, []) u.flavor_direction = (init_scoreboard, []) :=
    flavorFold_no_match _ _ hf
  simp only [build_profile, h1, h2]
  exact ⟨rfl, rfl, rfl, rfl, rfl, rfl⟩

theorem c2_witness :
    (∀ fv ∈ singleFields ⟨"x", "x", "x", "x", ["y"], "x"⟩, lookupRule fv.1 fv.2 = none) ∧
    (∀ f ∈ (⟨"x", "x", "x", "x", ["y"], "x"⟩ : UserPref).flavor_direction,
        FLAVOR_RULES.find? (fun p => p.1 = f) = none) ∧
    ((build_profile ⟨"x", "x", "x", "x", ["y"], "x"⟩).profile.acidity_level = some "low" ∧
     (build_profile ⟨"x", "x", "x", "x", ["y"], "x"⟩).profile.caffeine_tendency = some "low" ∧
     (build_profile ⟨"x", "x", "x", "x", ["y"], "x"⟩).profile.roast_level = some "light" ∧
     (build_profile ⟨"x", "x", "x", "x", ["y"], "x"⟩).profile.flavor_direction = some "nutty_chocolate" ∧
     (build_profile ⟨"x", "x", "x", "x", ["y"], "x"⟩).profile.process_preference = some "washed" ∧
     (build_profile ⟨"x", "x", "x", "x", ["y"], "x"⟩).profile.brew_suitability = some "filter") := by
  have hs0 : ∀ fv ∈ singleFields ⟨"x", "x", "x", "x", ["y"], "x"⟩, lookupRule fv.1 fv.2 = none := by
    intro fv hfv
    simp only [singleFields, List.mem_cons, List.not_mem_nil, or_false] at hfv
    rcases hfv with h | h | h | h | h <;> subst h <;> rfl
  have hf0 : ∀ f ∈ (⟨"x", "x", "x", "x", ["y"], "x"⟩ : UserPref).flavor_direction,
      FLAVOR_RULES.find? (fun p => p.1 = f) = none := by
    intro f hf
    simp only [List.mem_cons, List.not_mem_nil, or_false] at hf
    subst hf
    rfl
  exact ⟨hs0, hf0, c2_default_bias ⟨"x", "x", "x", "x", ["y"], "x"⟩ hs0 hf0⟩

theorem foldl_argmaxStep_some (l : List (String × Int)) :
    ∀ b : String × Int, l.foldl argmaxStep (some b) = some (bestOf b l) := by
  induction l with
  | nil => intro b; rfl
  | cons x xs ih =>
    intro b
    have hstep : argmaxStep (some b) x = some (if x.2 > b.2 then x else b) := by
      by_cases hx : x.2 > b.2 <;> simp [argmaxStep, hx]
    calc (x :: xs).foldl argmaxStep (some b)
        = xs.foldl argmaxStep (argmaxStep (some b) x) := rfl
      _ = xs.foldl argmaxStep (some (if x.2 > b.2 then x else b)) := by rw [hstep]
      _ = some (bestOf (if x.2 > b.2 then x else b) xs) := ih _
      _ = some (bestOf b (x :: xs)) := rfl

theorem argmax_label_cons (b : String × Int) (l : List (String × Int)) :
    argmax_label (b :: l) = some (bestOf b l).1 := by
  have h0 : (b :: l).foldl argmaxStep none = l.foldl argmaxStep (some b) := rfl
  rw [argmax_label, h0, foldl_argmaxStep_some]
  rfl

theorem bestOf_spec (l : List (String × Int)) :
    ∀ b : String × Int,
      ∃ l1 p l2, b :: l = l1 ++ p :: l2 ∧ bestOf b l = p ∧
        (∀ q ∈ b :: l, q.2 ≤ p.2) ∧ (∀ q ∈ l1, q.2 < p.2) := by
  induction l with
  | nil =>
    intro b
    exact ⟨[], b, [], rfl, rfl, by simp, by simp⟩
  | cons x xs ih =>
    intro b
    by_cases hx : x.2 > b.2
    · obtain ⟨l1, p, l2, heq, hbest, hmax, hstrict⟩ := ih x
      have hxp : x.2 ≤ p.2 := hmax x (List.mem_cons_self x xs)
      refine ⟨b :: l1, p, l2, ?_, ?_, ?_, ?_⟩
      · rw [List.cons_append, ← heq]
      · show bestOf (if x.2 > b.2 then x else b) xs = p
        rw [if_pos hx]
        exact hbest
      · intro q hq
        rcases List.mem_cons.mp hq with h | h
        · subst h; exact le_of_lt (lt_of_lt_of_le hx hxp)
        · exact hmax q h
      · intro q hq
        rcases List.mem_cons.mp hq with h | h
        · subst h; exact lt_of_lt_of_le hx hxp
        · exact hstrict q h
    · obtain ⟨l1, p, l2, heq, hbest, hmax, hstrict⟩ := ih b
      have hxb : x.2 ≤ b.2 := le_of_not_lt hx
      have hfold : bestOf b (x :: xs) = bestOf b xs := by
        show bestOf (if x.2 > b.2 then x else b) xs = bestOf b xs
        rw [if_neg hx]
      cases l1 with
      | nil =>
        have hpb' : b = p ∧ xs = l2 := by
          have := heq
          simp only [List.nil_append, List.cons.injEq] at this
          exact this
        refine ⟨[], b, x :: xs, rfl, ?_, ?_, by simp⟩
        · rw [hfold, hbest, ← hpb'.1]
        · intro q hq
          rcases List.mem_cons.mp hq with h | h
          · subst h; exact le_refl _
          · rcases List.mem_cons.mp h with h2 | h2
            · subst h2; exact hxb
            · have := hmax q (List.mem_cons_of_mem b (hpb'.2 ▸ List.mem_append_right [] (hpb'.2 ▸ h2)))
              calc q.2 ≤ p.2 := hmax q (List.mem_cons_of_mem b h2)
                _ = b.2 := by rw [← hpb'.1]
      | cons a l1' =>
        have hsplit : a = b ∧ xs = l1' ++ p :: l2 := by
          have := heq
          simp only [List.cons_append, List.cons.injEq] at this
          exact ⟨this.1.symm, this.2⟩
        have hbp : b.2 < p.2 := by
          have := hstrict a (List.mem_cons_self a l1')
          rw [hsplit.1] at this
          exact this
        refine ⟨b :: x :: l1', p, l2, ?_, ?_, ?_, ?_⟩
        · rw [List.cons_append, List.cons_append, hsplit.2]
        · rw [hfold]; exact hbest
        · intro q hq
          rcases List.mem_cons.mp hq with h | h
          · subst h; exact le_of_lt hbp
          · rcases List.mem_cons.mp h with h2 | h2
            · subst h2; exact le_trans hxb (le_of_lt hbp)
            · exact hmax q (List.mem_cons_of_mem b h2)
        · intro q hq
          rcases List.mem_cons.mp hq with h | h
          · subst h; exact hbp
          · rcases List.mem_cons.mp h with h2 | h2
            · subst h2; exact lt_of_le_of_lt hxb hbp
            · exact hstrict q (List.mem_cons_of_mem a h2)

/-- C3: on a non-empty score mapping, `argmax_label` returns the label of an
entry whose score is maximal and which is the first such entry in iteration
order (every earlier entry scores strictly less). -/
theorem c3_argmax_first_wins (m : ScoreMap) (h : m ≠ []) :
    ∃ l1 p l2, m = l1 ++ p :: l2 ∧ argmax_label m = some p.1 ∧
      (∀ q ∈ m, q.2 ≤ p.2) ∧ (∀ q ∈ l1, q.2 < p.2) := by
  cases m with
  | nil => exact absurd rfl h
  | cons b l =>
    obtain ⟨l1, p, l2, heq, hbest, hmax, hstrict⟩ := bestOf_spec l b
    refine ⟨l1, p, l2, heq, ?_, hmax, hstrict⟩
    rw [argmax_label_cons, hbest]

theorem c3_witness :
    ([("a", (1 : Int)), ("b", 2), ("c", 2)] : ScoreMap) ≠ [] ∧
    ∃ l1 p l2, ([("a", (1 : Int)), ("b", 2), ("c", 2)] : ScoreMap) = l1 ++ p :: l2 ∧
      argmax_label [("a", (1 : Int)), ("b", 2), ("c", 2)] = some p.1 ∧
      (∀ q ∈ ([("a", (1 : Int)), ("b", 2), ("c", 2)] : ScoreMap), q.2 ≤ p.2) ∧
      (∀ q ∈ l1, q.2 < p.2) :=
  ⟨by simp, c3_argmax_first_wins [("a", 1), ("b", 2), ("c", 2)] (by simp)⟩

theorem insertReason_perm (x : String × Int) (l : List (String × Int)) :
    (insertReason x l).Perm (x :: l) := by
  induction l with
  | nil => exact List.Perm.refl _
  | cons y ys ih =>
    show (if x.2 ≥ y.2 then x :: y :: ys else y :: insertReason x ys).Perm (x :: y :: ys)
    by_cases hxy : x.2 ≥ y.2
    · rw [if_pos hxy]
    · rw [if_neg hxy]
      exact ((ih.cons y).trans (List.Perm.swap x y ys)).symm.symm

theorem sortReasonsDesc_perm (l : List (String × Int)) :
    (sortReasonsDesc l).Perm l := by
  induction l with
  | nil => exact List.Perm.refl _
  | cons x xs ih =>
    exact (insertReason_perm x (sortReasonsDesc xs)).trans (ih.cons x)

theorem insertReason_pairwise (x : String × Int) (l : List (String × Int))
    (h : l.Pairwise (fun a b => b.2 ≤ a.2)) :
    (insertReason x l).Pairwise (fun a b => b.2 ≤ a.2) := by
  induction l with
  | nil => simp [insertReason]
  | cons y ys ih =>
    show (if x.2 ≥ y.2 then x :: y :: ys else y :: insertReason x ys).Pairwise _
    rcases List.pairwise_cons.mp h with ⟨hy, hys⟩
    by_cases hxy : x.2 ≥ y.2
    · rw [if_pos hxy]
      refine List.pairwise_cons.mpr ⟨?_, h⟩
      intro q hq
      rcases List.mem_cons.mp hq with h2 | h2
      · subst h2; exact hxy
      · exact le_trans (hy q h2) hxy
    · rw [if_neg hxy]
      refine List.pairwise_cons.mpr ⟨?_, ih hys⟩
      intro q hq
      have hq' : q ∈ x :: ys := (insertReason_perm x ys).mem_iff.mp hq
      rcases List.mem_cons.mp hq' with h2 | h2
      · subst h2; exact le_of_not_le hxy
      · exact hy q h2

theorem sortReasonsDesc_pairwise (l : List (String × Int)) :
    (sortReasonsDesc l).Pairwise (fun a b => b.2 ≤ a.2) := by
  induction l with
  | nil => simp [sortReasonsDesc]
  | cons x xs ih => exact insertReason_pairwise x _ ih

theorem insertReason_filter (x : String × Int) (l : List (String × Int)) (p : Int) :
    (insertReason x l).filter (fun q => q.2 == p) =
      if x.2 == p then x :: l.filter (fun q => q.2 == p)
      else l.filter (fun q => q.2 == p) := by
  induction l with
  | nil =>
    show ([x]).filter (fun q => q.2 == p) = _
    by_cases hx : x.2 == p <;> simp [List.filter, hx]
  | cons y ys ih =>
    show (if x.2 ≥ y.2 then x :: y :: ys else y :: insertReason x ys).filter _ = _
    by_cases hxy : x.2 ≥ y.2
    · rw [if_pos hxy]
      simp [List.filter_cons]
    · rw [if_neg hxy]
      by_cases hx : x.2 = p <;> by_cases hy : y.2 = p
      · exfalso
        rw [hx] at hxy
        rw [hy] at hxy
        exact hxy (le_refl p)
      · simp [List.filter_cons, hx, hy, ih]
      · simp [List.filter_cons, hx, hy, ih]
      · simp [List.filter_cons, hx, hy, ih]

theorem sortReasonsDesc_filter (l : List (String × Int)) (p : Int) :
    (sortReasonsDesc l).filter (fun q => q.2 == p) = l.filter (fun q => q.2 == p) := by
  induction l with
  | nil => rfl
  | cons x xs ih =>
    show (insertReason x (sortReasonsDesc xs)).filter _ = _
    rw [insertReason_filter]
    by_cases hx : x.2 = p <;> simp [List.filter_cons, hx, ih]

theorem sortReasonsDesc_length (l : List (String × Int)) :
    (sortReasonsDesc l).length = l.length :=
  (sortReasonsDesc_perm l).length_eq

/-- C4: `top_reasons` returns the texts of a stable descending sort of the
entries (a permutation, sorted by priority descending, preserving the
original order within each equal-priority class), truncated to `k` texts;
with fewer than `k` entries all texts are returned. -/
theorem c4_top_reasons_spec (rs : List (String × Int)) (k : Nat) :
    ∃ s : List (String × Int),
      s.Perm rs ∧
      s.Pairwise (fun a b => b.2 ≤ a.2) ∧
      (∀ p : Int, s.filter (fun q => q.2 == p) = rs.filter (fun q => q.2 == p)) ∧
      top_reasons rs k = (s.take k).map Prod.fst ∧
      (top_reasons rs k).length = min k rs.length :=
  ⟨sortReasonsDesc rs,
   sortReasonsDesc_perm rs,
   sortReasonsDesc_pairwise rs,
   fun p => sortReasonsDesc_filter rs p,
   rfl,
   by simp [top_reasons, List.length_take, sortReasonsDesc_length]⟩

theorem lookupSM_map_add (m : ScoreMap) (lab : String) (d : Int) (x : String) :
    lookupSM (m.map (fun p => if p.1 = lab then (p.1, p.2 + d) else p)) x =
      if x = lab then (lookupSM m x).map (· + d) else lookupSM m x := by
  induction m with
  | nil => by_cases hx : x = lab <;> simp [lookupSM, hx]
  | cons q qs ih =>
    by_cases hq : q.1 = lab <;> by_cases hx : q.1 = x
    · have hxl : x = lab := by rw [← hx, hq]
      simp [lookupSM, hq, hx, hxl]
    · have hxl : ¬ x = lab := fun h => hx (by rw [hq, ← h])
      have hlx : ¬ lab = x := fun h => hxl h.symm
      simp [lookupSM, hq, hx, hxl, hlx, ih]
    · have hxl : ¬ x = lab := fun h => hq (by rw [hx, h])
      simp [lookupSM, hq, hx, hxl]
    · simp [lookupSM, hq, hx, ih]

theorem lookupSM_eq_none_of_any_false (m : ScoreMap) (lab : String)
    (h : m.any (fun p => p.1 = lab) = false) : lookupSM m lab = none := by
  induction m with
  | nil => rfl
  | cons q qs ih =>
    simp only [List.any_cons, Bool.or_eq_false_iff, decide_eq_false_iff_not] at h
    simp [lookupSM, h.1, ih h.2]

theorem lookupSM_addDelta (m : ScoreMap) (lab : String) (d : Int) (x : String) :
    lookupSM (addDelta m lab d) x =
      if x = lab then (lookupSM m x).map (· + d) else lookupSM m x := by
  unfold addDelta
  by_cases hmem : m.any (fun p => p.1 = lab) = true
  · rw [if_pos hmem]
    exact lookupSM_map_add m lab d x
  · rw [if_neg hmem]
    by_cases hx : x = lab
    · subst hx
      rw [if_pos rfl, lookupSM_eq_none_of_any_false m x
        (by simp only [Bool.not_eq_true] at hmem; exact hmem)]
      rfl
    · rw [if_neg hx]

theorem lookupSM_eq_none_of_not_mem (m : ScoreMap) (x : String)
    (h : x ∉ m.map Prod.fst) : lookupSM m x = none := by
  induction m with
  | nil => rfl
  | cons q qs ih =>
    simp only [List.map_cons, List.mem_cons, not_or] at h
    have hq : ¬ q.1 = x := fun hh => h.1 hh.symm
    simp [lookupSM, hq, ih h.2]

theorem lookupSM_applyChanges (ch : ScoreMap) (m : ScoreMap) (x : String)
    (hnd : (ch.map Prod.fst).Nodup) :
    lookupSM (applyChanges m ch) x =
      match lookupSM ch x with
      | some d => (lookupSM m x).map (· + d)
      | none => lookupSM m x := by
  induction ch generalizing m with
  | nil => simp [applyChanges, lookupSM]
  | cons c cs ih =>
    simp only [List.map_cons, List.nodup_cons] at hnd
    obtain ⟨hnotin, hnd'⟩ := hnd
    have hfold : applyChanges m (c :: cs) = applyChanges (addDelta m c.1 c.2) cs := rfl
    rw [hfold, ih _ hnd']
    by_cases hx : x = c.1
    · subst hx
      rw [lookupSM_eq_none_of_not_mem cs c.1 hnotin, lookupSM_addDelta, if_pos rfl]
      simp [lookupSM]
    · rw [lookupSM_addDelta, if_neg hx]
      have hcx : ¬ c.1 = x := fun hh => hx hh.symm
      simp [lookupSM, hcx]

theorem dimMap_map_update (sc : Scoreboard) (dim : String) (ch : ScoreMap) (x : String) :
    dimMap (sc.map (fun p => if p.1 = dim then (p.1, applyChanges p.2 ch) else p)) x =
      if x = dim then (dimMap sc dim).map (fun m => applyChanges m ch) else dimMap sc x := by
  induction sc with
  | nil => by_cases hx : x = dim <;> simp [dimMap, hx]
  | cons q qs ih =>
    by_cases hq : q.1 = dim <;> by_cases hx : q.1 = x
    · have hxl : x = dim := by rw [← hx, hq]
      simp [dimMap, hq, hx, hxl]
    · have hxl : ¬ x = dim := fun h => hx (by rw [hq, ← h])
      have hlx : ¬ dim = x := fun h => hxl h.symm
      simp [dimMap, hq, hx, hxl, hlx, ih]
    · have hxl : ¬ x = dim := fun h => hq (by rw [hx, h])
      simp [dimMap, hq, hx, hxl]
    · simp [dimMap, hq, hx, ih]

theorem dimMap_eq_none_of_any_false (sc : Scoreboard) (dim : String)
    (h : sc.any (fun p => p.1 = dim) = false) : dimMap sc dim = none := by
  induction sc with
  | nil => rfl
  | cons q qs ih =>
    simp only [List.any_cons, Bool.or_eq_false_iff, decide_eq_false_iff_not] at h
    simp [dimMap, h.1, ih h.2]

theorem dimMap_eq_none_of_not_mem (sc : Scoreboard) (dim : String)
    (h : dim ∉ sc.map Prod.fst) : dimMap sc dim = none := by
  induction sc with
  | nil => rfl
  | cons q qs ih =>
    simp only [List.map_cons, List.mem_cons, not_or] at h
    have hq : ¬ q.1 = dim := fun hh => h.1 hh.symm
    simp [dimMap, hq, ih h.2]

theorem lookupScore_eq (sb : Scoreboard) (dim lab : String) :
    lookupScore sb dim lab =
      match dimMap sb dim with
      | none => none
      | some m => lookupSM m lab := by
  induction sb with
  | nil => rfl
  | cons e es ih => by_cases he : e.1 = dim <;> simp [lookupScore, dimMap, he, ih]

theorem lookupScore_applyDimDelta (sc : Scoreboard) (dc : String × ScoreMap) (d2 x : String) :
    lookupScore (applyDimDelta sc dc) d2 x =
      if d2 = dc.1 then
        match dimMap sc dc.1 with
        | none => none
        | some m => lookupSM (applyChanges m dc.2) x
      else lookupScore sc d2 x := by
  unfold applyDimDelta
  by_cases hmem : sc.any (fun p => p.1 = dc.1) = true
  · rw [if_pos hmem, lookupScore_eq, dimMap_map_update]
    by_cases hd : d2 = dc.1
    · rw [if_pos hd, if_pos hd]
      cases dimMap sc dc.1 <;> rfl
    · rw [if_neg hd, if_neg hd, ← lookupScore_eq]
  · rw [if_neg hmem]
    by_cases hd : d2 = dc.1
    · rw [if_pos hd,
          dimMap_eq_none_of_any_false sc dc.1
            (by simp only [Bool.not_eq_true] at hmem; exact hmem),
          lookupScore_eq, hd,
          dimMap_eq_none_of_any_false sc dc.1
            (by simp only [Bool.not_eq_true] at hmem; exact hmem)]
    · rw [if_neg hd]

/-- C7: `apply_delta` adds each delta whose dimension and label both exist in
the scoreboard to the stored score, silently skips deltas naming an unknown
dimension or label, and leaves every entry not named by the delta-set
unchanged: an existing (dim, label) score becomes old + delta when the
delta-set names it and stays old otherwise, and a missing entry stays
missing. -/
theorem c7_apply_delta_pointwise (sb deltas : Scoreboard) (dim lab : String)
    (hd : (deltas.map Prod.fst).Nodup)
    (hc : ∀ e ∈ deltas, (e.2.map Prod.fst).Nodup) :
    lookupScore (apply_delta sb deltas) dim lab =
      match lookupScore sb dim lab with
      | none => none
      | some v => some (v + (lookupScore deltas dim lab).getD 0) := by
  induction deltas generalizing sb with
  | nil =>
    show lookupScore sb dim lab = _
    cases lookupScore sb dim lab <;> simp [lookupScore]
  | cons e rest ih =>
    simp only [List.map_cons, List.nodup_cons] at hd
    obtain ⟨hnotin, hd'⟩ := hd
    have hch : (e.2.map Prod.fst).Nodup := hc e (List.mem_cons_self e rest)
    have hc' : ∀ y ∈ rest, (y.2.map Prod.fst).Nodup :=
      fun y hy => hc y (List.mem_cons_of_mem e hy)
    have hstep : apply_delta sb (e :: rest) = apply_delta (applyDimDelta sb e) rest := rfl
    rw [hstep, ih _ hd' hc']
    by_cases hdim : dim = e.1
    · have hnotin' : dim ∉ rest.map Prod.fst := by rw [hdim]; exact hnotin
      have h1 : lookupScore rest dim lab = none := by
        rw [lookupScore_eq, dimMap_eq_none_of_not_mem rest dim hnotin']
      have h2 : lookupScore (e :: rest) dim lab = lookupSM e.2 lab := by
        show (if e.1 = dim then lookupSM e.2 lab else lookupScore rest dim lab) = _
        rw [if_pos hdim.symm]
      rw [h1, h2, lookupScore_applyDimDelta, if_pos hdim, lookupScore_eq sb dim lab, hdim]
      cases hm : dimMap sb e.1 with
      | none => rfl
      | some m =>
        dsimp only
        rw [lookupSM_applyChanges e.2 m lab hch]
        cases hdm : lookupSM e.2 lab <;> cases hv : lookupSM m lab <;> simp
    · have h2 : lookupScore (e :: rest) dim lab = lookupScore rest dim lab := by
        show (if e.1 = dim then lookupSM e.2 lab else lookupScore rest dim lab) = _
        rw [if_neg (fun hh => hdim hh.symm)]
      rw [lookupScore_applyDimDelta, if_neg hdim, h2]

theorem c7_witness :
    (((([("acidity", [("low", (4 : Int))]), ("zzz", [("low", 1)])] : Scoreboard).map
        Prod.fst).Nodup) ∧
     (∀ e ∈ ([("acidity", [("low", (4 : Int))]), ("zzz", [("low", 1)])] : Scoreboard),
        (e.2.map Prod.fst).Nodup)) ∧
    lookupScore
        (apply_delta init_scoreboard
          [("acidity", [("low", 4)]), ("zzz", [("low", 1)])]) "acidity" "low" =
      match lookupScore init_scoreboard "acidity" "low" with
      | none => none
      | some v =>
        some (v + (lookupScore
          [("acidity", [("low", (4 : Int))]), ("zzz", [("low", 1)])] "acidity" "low").getD 0) := by
  have hd : ((([("acidity", [("low", (4 : Int))]), ("zzz", [("low", 1)])] : Scoreboard).map
      Prod.fst).Nodup) := by simp
  have hc : ∀ e ∈ ([("acidity", [("low", (4 : Int))]), ("zzz", [("low", 1)])] : Scoreboard),
      (e.2.map Prod.fst).Nodup := by
    intro e he
    simp only [List.mem_cons, List.not_mem_nil, or_false] at he
    rcases he with h | h <;> subst h <;> simp
  exact ⟨⟨hd, hc⟩,
    c7_apply_delta_pointwise init_scoreboard
      [("acidity", [("low", 4)]), ("zzz", [("low", 1)])] "acidity" "low" hd hc⟩

theorem skeleton_cons (a : String × ScoreMap) (l : Scoreboard) :
    skeleton (a :: l) = (a.1, a.2.map Prod.fst) :: skeleton l := rfl

theorem keys_map_ite (m : ScoreMap) (lab : String) (d : Int) :
    ((m.map (fun p => if p.1 = lab then (p.1, p.2 + d) else p)).map Prod.fst) =
      m.map Prod.fst := by
  induction m with
  | nil => rfl
  | cons q qs ih => by_cases hq : q.1 = lab <;> simp [hq, ih]

theorem keys_addDelta (m : ScoreMap) (lab : String) (d : Int) :
    (addDelta m lab d).map Prod.fst = m.map Prod.fst := by
  unfold addDelta
  split
  · exact keys_map_ite m lab d
  · rfl

theorem keys_applyChanges (ch m : ScoreMap) :
    (applyChanges m ch).map Prod.fst = m.map Prod.fst := by
  induction ch generalizing m with
  | nil => rfl
  | cons c cs ih =>
    have hfold : applyChanges m (c :: cs) = applyChanges (addDelta m c.1 c.2) cs := rfl
    rw [hfold, ih, keys_addDelta]

theorem skeleton_map_update (sc : Scoreboard) (dim : String) (ch : ScoreMap) :
    skeleton (sc.map (fun p => if p.1 = dim then (p.1, applyChanges p.2 ch) else p)) =
      skeleton sc := by
  induction sc with
  | nil => rfl
  | cons q qs ih =>
    by_cases hq : q.1 = dim
    · rw [List.map_cons, if_pos hq, skeleton_cons, skeleton_cons, ih, keys_applyChanges]
    · rw [List.map_cons, if_neg hq, skeleton_cons, skeleton_cons, ih]

theorem skeleton_applyDimDelta (sc : Scoreboard) (dc : String × ScoreMap) :
    skeleton (applyDimDelta sc dc) = skeleton sc := by
  unfold applyDimDelta
  split
  · exact skeleton_map_update sc dc.1 dc.2
  · rfl

theorem skeleton_apply_delta (sb deltas : Scoreboard) :
    skeleton (apply_delta sb deltas) = skeleton sb := by
  induction deltas generalizing sb with
  | nil => rfl
  | cons e rest ih =>
    have hfold : apply_delta sb (e :: rest) = apply_delta (applyDimDelta sb e) rest := rfl
    rw [hfold, ih, skeleton_applyDimDelta]

theorem skeleton_applyFieldRule (st : ScoreState) (field value : String) :
    skeleton (applyFieldRule st field value).1 = skeleton st.1 := by
  unfold applyFieldRule
  cases lookupRule field value with
  | none => rfl
  | some r => exact skeleton_apply_delta st.1 r.1

theorem skeleton_fieldFold (l : List (String × String)) (st : ScoreState) :
    skeleton ((l.foldl (fun acc fv => applyFieldRule acc fv.1 fv.2) st).1) = skeleton st.1 := by
  induction l generalizing st with
  | nil => rfl
  | cons fv rest ih =>
    simp only [List.foldl_cons]
    rw [ih, skeleton_applyFieldRule]

theorem skeleton_flavorStep (st : ScoreState) (f : String) :
    skeleton (flavorStep st f).1 = skeleton st.1 := by
  unfold flavorStep
  cases FLAVOR_RULES.find? (fun p => p.1 = f) with
  | none => rfl
  | some r => exact skeleton_apply_delta st.1 r.2.1

theorem skeleton_flavorFold (l : List String) (st : ScoreState) :
    skeleton ((flavorFold st l).1) = skeleton st.1 := by
  induction l generalizing st with
  | nil => rfl
  | cons f rest ih =>
    show skeleton (((f :: rest).foldl flavorStep st).1) = _
    simp only [List.foldl_cons]
    rw [show (rest.foldl flavorStep (flavorStep st f)) = flavorFold (flavorStep st f) rest
          from rfl]
    rw [ih, skeleton_flavorStep]

/-- C8: the key structure of the scoreboard is invariant: `init_scoreboard`
carries exactly the canonical label set of every dimension (including the
derived bean_pref axis), `apply_delta` never adds or removes a key, and the
scoreboard returned by `build_profile` still has exactly the canonical keys. -/
theorem c8_key_structure_invariant :
    skeleton init_scoreboard = canonicalSkeleton ∧
    (∀ sb deltas : Scoreboard, skeleton (apply_delta sb deltas) = skeleton sb) ∧
    (∀ u : UserPref, skeleton (build_profile u).scores = canonicalSkeleton) := by
  refine ⟨rfl, fun sb deltas => skeleton_apply_delta sb deltas, fun u => ?_⟩
  have hsc : (build_profile u).scores =
      (flavorFold (singleFold u (init_scoreboard, [])) u.flavor_direction).1 := rfl
  rw [hsc, skeleton_flavorFold]
  rw [show singleFold u (init_scoreboard, []) =
        (singleFields u).foldl (fun acc fv => applyFieldRule acc fv.1 fv.2)
          (init_scoreboard, []) from rfl]
  rw [skeleton_fieldFold]
  rfl
